import Mathlib

/-!
# file2ddl — verification of the core type-inference engine

Shallow embedding of the core of the `file2ddl` repository (`main.go`):
the quote-aware tokenizer `splitFields`, the per-value type recognizer
`inferType` with its predicates (`isBoolean`, `isSmallInt`, `isInteger`,
`isBigInt`, `isNumeric`, `isTimestamp`, `isDate`, `isVarchar`), and the
line-by-line analyzer `analyzeFileTypes` (column-rank promotion and row
arity validation).

Strings are modelled as Lean `String`s; `main.go` iterates over bytes,
which agrees with the `List Char` view on ASCII data (all inputs the
claims exercise are ASCII).  Go standard-library calls
(`strconv.ParseInt`, `strconv.ParseFloat`, `time.Parse`) are modelled by
executable Lean functions following the library's documented grammar;
the float model omits the float64 overflow/underflow range error
(strings denoting magnitudes beyond ~1.8e308), which no analysed input
reaches.
-/

namespace File2ddl

/-- Quote-mode selector of the tokenizer (the `-quotes` flag of
`main.go`: `none`, `single` or `double`). -/
inductive QuoteMode
  | none
  | single
  | double
deriving DecidableEq

/-- Inner loop of `strings.Split(line, delim)` for a one-character
delimiter, as used by `splitFields` when `quotes == "none"`:
split on every occurrence of the delimiter, keeping empty fields;
the accumulated current field is emitted at end of line. -/
def splitNoneAux (delim : Char) : List Char → List Char → List String
  | [], cur => [String.mk cur]
  | c :: rest, cur =>
    if c = delim then String.mk cur :: splitNoneAux delim rest []
    else splitNoneAux delim rest (cur ++ [c])

/-- The quoted branch of `splitFields` (`main.go`): scan character by
character; the active quote character toggles `inQuote` and is dropped;
the delimiter ends the field only outside quotes; any other character is
appended to the current field; the final field is always emitted. -/
def splitQuotedAux (delim quoteChar : Char) : List Char → Bool → List Char → List String
  | [], _, cur => [String.mk cur]
  | c :: rest, inQuote, cur =>
    if c = quoteChar then splitQuotedAux delim quoteChar rest (!inQuote) cur
    else if c = delim ∧ inQuote = false then
      String.mk cur :: splitQuotedAux delim quoteChar rest inQuote []
    else splitQuotedAux delim quoteChar rest inQuote (cur ++ [c])

/-- `splitFields` of `main.go`: tokenize one line into fields.
`main.go` passes the delimiter as a one-byte string (`delim[0]`),
modelled here as a `Char`. -/
def splitFields (line : String) (delim : Char) (quotes : QuoteMode) : List String :=
  match quotes with
  | QuoteMode.none => splitNoneAux delim line.data []
  | QuoteMode.single => splitQuotedAux delim '\'' line.data false []
  | QuoteMode.double => splitQuotedAux delim '"' line.data false []

/-- ASCII decimal digit test (`'0' <= c && c <= '9'`). -/
def isDigitChar (c : Char) : Bool :=
  decide ('0' ≤ c) && decide (c ≤ '9')

/-- ASCII lower-casing, as Go's `lower`/`strings.ToLower` acts on the
ASCII values the claims exercise. -/
def asciiLower (c : Char) : Char :=
  if 'A' ≤ c ∧ c ≤ 'Z' then Char.ofNat (c.toNat + 32) else c

/-- `unicode.IsSpace` as used by `strings.TrimSpace`: ASCII whitespace
`\t \n \v \f \r ' '` plus the Unicode space characters. -/
def goIsSpace (c : Char) : Bool :=
  decide (c = ' ') || decide (c = '\t') || decide (c = '\n') ||
  decide (c.toNat = 0x0B) || decide (c.toNat = 0x0C) || decide (c = '\r') ||
  decide (c.toNat = 0x85) || decide (c.toNat = 0xA0) ||
  decide (c.toNat = 0x1680) ||
  (decide (0x2000 ≤ c.toNat) && decide (c.toNat ≤ 0x200A)) ||
  decide (c.toNat = 0x2028) || decide (c.toNat = 0x2029) ||
  decide (c.toNat = 0x202F) || decide (c.toNat = 0x205F) ||
  decide (c.toNat = 0x3000)

/-- Go `strings.TrimSpace`: drop leading and trailing whitespace. -/
def trimSpace (s : String) : String :=
  String.mk (((s.data.dropWhile goIsSpace).reverse.dropWhile goIsSpace).reverse)

/-- `isBoolean` of `main.go`: after trimming and lower-casing, the value
must be exactly `true`, `false`, `t` or `f`. -/
def isBoolean (value : String) : Bool :=
  let v := String.mk ((trimSpace value).data.map asciiLower)
  v == "true" || v == "false" || v == "t" || v == "f"

/-- Numeric value of a run of decimal digits. -/
def digitsToNat (cs : List Char) : Nat :=
  cs.foldl (fun a c => a * 10 + (c.toNat - 48)) 0

/-- A non-empty all-digit run, as `strconv.ParseUint` base 10 requires
(an explicit base forbids underscores). -/
def parseDecDigits (cs : List Char) : Option Nat :=
  if cs ≠ [] ∧ cs.all isDigitChar then some (digitsToNat cs) else none

/-- Go `strconv.ParseInt(s, 10, bits)`: optional sign, at least one
decimal digit, in `[-2^(bits-1), 2^(bits-1)-1]`. -/
def goParseInt (s : String) (bits : Nat) : Option Int :=
  match s.data with
  | [] => none
  | c :: rest =>
    let signed : Bool × List Char :=
      if c = '-' then (true, rest) else if c = '+' then (false, rest) else (false, c :: rest)
    match parseDecDigits signed.2 with
    | Option.none => none
    | Option.some n =>
      let v : Int := if signed.1 then -(n : Int) else (n : Int)
      if -(2 ^ (bits - 1) : Int) ≤ v ∧ v ≤ 2 ^ (bits - 1) - 1 then some v else none

/-- `isSmallInt` of `main.go`: 16-bit parse plus the (redundant) range
re-check. -/
def isSmallInt (value : String) : Bool :=
  match goParseInt value 16 with
  | some num => decide (-32768 ≤ num) && decide (num ≤ 32767)
  | none => false

/-- `isInteger` of `main.go`: 32-bit parse succeeds. -/
def isInteger (value : String) : Bool :=
  (goParseInt value 32).isSome

/-- `isBigInt` of `main.go`: 64-bit parse succeeds. -/
def isBigInt (value : String) : Bool :=
  (goParseInt value 64).isSome

/-- ASCII hexadecimal digit test. -/
def isHexDigitChar (c : Char) : Bool :=
  isDigitChar c || (decide ('a' ≤ asciiLower c) && decide (asciiLower c ≤ 'f'))

/-- The `special` recognizer of `strconv.ParseFloat`: the full string is
a case-insensitive `inf`/`infinity` (optionally signed) or an unsigned
`nan`. -/
def goParseFloatSpecial (cs : List Char) : Bool :=
  let l := String.mk (cs.map asciiLower)
  l == "inf" || l == "infinity" || l == "+inf" || l == "-inf" ||
  l == "+infinity" || l == "-infinity" || l == "nan"

/-- Mantissa scan of `strconv`'s `readFloat`: consume digits (of the
active base), underscores, and at most one dot; stop at the first other
character.  Returns the unconsumed rest and the `sawdot`, `sawdigits`
and `underscores` flags. -/
def scanMantissa (hex : Bool) : List Char → Bool → Bool → Bool → List Char × Bool × Bool × Bool
  | [], sawdot, sawdigits, und => ([], sawdot, sawdigits, und)
  | c :: rest, sawdot, sawdigits, und =>
    if c = '_' then scanMantissa hex rest sawdot sawdigits true
    else if c = '.' then
      if sawdot then (c :: rest, sawdot, sawdigits, und)
      else scanMantissa hex rest true sawdigits und
    else if (if hex then isHexDigitChar c else isDigitChar c) then
      scanMantissa hex rest sawdot true und
    else (c :: rest, sawdot, sawdigits, und)

/-- Exponent-digit scan of `readFloat`: consume decimal digits and
underscores. -/
def scanExpDigits : List Char → Bool → List Char × Bool
  | [], und => ([], und)
  | c :: rest, und =>
    if c = '_' then scanExpDigits rest true
    else if isDigitChar c then scanExpDigits rest und
    else (c :: rest, und)

/-- Loop of `strconv.underscoreOK`: `saw` is the kind of the previous
character (`^` beginning, `0` digit or base prefix, `_` underscore,
`!` anything else); underscores must sit between digits. -/
def underscoreOKAux (hex : Bool) : List Char → Char → Bool
  | [], saw => saw ≠ '_'
  | c :: rest, saw =>
    if isDigitChar c || (hex && decide ('a' ≤ asciiLower c) && decide (asciiLower c ≤ 'f')) then
      underscoreOKAux hex rest '0'
    else if c = '_' then
      if saw = '0' then underscoreOKAux hex rest '_' else false
    else if saw = '_' then false
    else underscoreOKAux hex rest '!'

/-- `strconv.underscoreOK`: validate underscore placement over the
original string (sign and base prefix included). -/
def underscoreOK (cs0 : List Char) : Bool :=
  let cs1 := match cs0 with
    | c :: r => if c = '-' ∨ c = '+' then r else cs0
    | [] => cs0
  match cs1 with
  | '0' :: x :: r =>
    if asciiLower x = 'b' ∨ asciiLower x = 'o' ∨ asciiLower x = 'x' then
      underscoreOKAux (asciiLower x = 'x') r '0'
    else underscoreOKAux false cs1 '^'
  | _ => underscoreOKAux false cs1 '^'

/-- Number grammar of `strconv.ParseFloat` (`readFloat` followed by the
full-consumption check): optional sign; optional `0x` prefix; mantissa
digits with at most one dot and at least one digit; for hexadecimal a
mandatory `p` exponent, for decimal an optional `e` exponent (optional
sign, at least one leading decimal digit); underscores must satisfy
`underscoreOK`.  The float64 overflow/underflow range error is not
modelled. -/
def goParseFloatNumber (cs0 : List Char) : Bool :=
  let cs1 := match cs0 with
    | c :: r => if c = '+' ∨ c = '-' then r else cs0
    | [] => []
  let hexAndRest : Bool × List Char := match cs1 with
    | '0' :: x :: r => if asciiLower x = 'x' then (true, r) else (false, cs1)
    | _ => (false, cs1)
  let hex := hexAndRest.1
  let scanned := scanMantissa hex hexAndRest.2 false false false
  let rest := scanned.1
  let sawdigits := scanned.2.2.1
  let und := scanned.2.2.2
  if sawdigits = false then false
  else
    match rest with
    | [] => if hex then false else (und = false || underscoreOK cs0)
    | c :: r =>
      if asciiLower c = (if hex then 'p' else 'e') then
        let r1 := match r with
          | s :: r2 => if s = '+' ∨ s = '-' then r2 else s :: r2
          | [] => []
        match r1 with
        | [] => false
        | d :: _ =>
          if isDigitChar d then
            let escan := scanExpDigits r1 und
            decide (escan.1 = []) && (escan.2 = false || underscoreOK cs0)
          else false
      else false

/-- `isNumeric` of `main.go`: `strconv.ParseFloat(value, 64)` succeeds. -/
def isNumeric (value : String) : Bool :=
  goParseFloatSpecial value.data || goParseFloatNumber value.data

/-- Gregorian leap year, as `time` package's `isLeap`. -/
def isLeapYear (y : Nat) : Bool :=
  decide (y % 4 = 0) && (decide (y % 100 ≠ 0) || decide (y % 400 = 0))

/-- Days in a month, as `time` package's `daysIn`. -/
def daysInMonth (m y : Nat) : Nat :=
  if m = 2 then (if isLeapYear y then 29 else 28)
  else if m = 4 ∨ m = 6 ∨ m = 9 ∨ m = 11 then 30
  else 31

/-- Value of an ASCII digit. -/
def digitVal (c : Char) : Nat := c.toNat - 48

/-- `time`'s `getnum` with `fixed`: exactly two decimal digits. -/
def readNum2 : List Char → Option (Nat × List Char)
  | a :: b :: rest =>
    if isDigitChar a ∧ isDigitChar b then some (digitVal a * 10 + digitVal b, rest) else none
  | _ => none

/-- `time`'s four-digit year (`stdLongYear`): exactly four decimal
digits. -/
def readNum4 : List Char → Option (Nat × List Char)
  | a :: b :: c :: d :: rest =>
    if isDigitChar a ∧ isDigitChar b ∧ isDigitChar c ∧ isDigitChar d then
      some (((digitVal a * 10 + digitVal b) * 10 + digitVal c) * 10 + digitVal d, rest)
    else none
  | _ => none

/-- Match one literal layout character. -/
def expectChar (c : Char) : List Char → Option (List Char)
  | d :: rest => if d = c then some rest else none
  | [] => none

/-- Layout fragment `2006-01-02` of `time.Parse`, with the month and
day range checks `time.Parse` performs. -/
def readISODate (cs : List Char) : Option (List Char) := do
  let (y, cs) ← readNum4 cs
  let cs ← expectChar '-' cs
  let (m, cs) ← readNum2 cs
  let cs ← expectChar '-' cs
  let (d, cs) ← readNum2 cs
  if 1 ≤ m ∧ m ≤ 12 ∧ 1 ≤ d ∧ d ≤ daysInMonth m y then some cs else none

/-- Layout fragment `15:04:05` of `time.Parse`, with the hour, minute
and second range checks. -/
def readHMS (cs : List Char) : Option (List Char) := do
  let (h, cs) ← readNum2 cs
  let cs ← expectChar ':' cs
  let (mi, cs) ← readNum2 cs
  let cs ← expectChar ':' cs
  let (s, cs) ← readNum2 cs
  if h ≤ 23 ∧ mi ≤ 59 ∧ s ≤ 59 then some cs else none

/-- `time.Parse`'s tolerance after seconds: a `.` or `,` followed by at
least one digit is consumed even when the layout has no fractional
seconds. -/
def skipFraction (cs : List Char) : List Char :=
  match cs with
  | c :: d :: rest =>
    if (c = '.' ∨ c = ',') ∧ isDigitChar d then (d :: rest).dropWhile isDigitChar
    else cs
  | _ => cs

/-- Layout fragment `.000`: a dot and exactly three digits. -/
def readFrac3 (cs : List Char) : Option (List Char) := do
  let cs ← expectChar '.' cs
  match cs with
  | a :: b :: c :: rest =>
    if isDigitChar a ∧ isDigitChar b ∧ isDigitChar c then some rest else none
  | _ => none

/-- One of the layouts `2006-01-02 15:04:05` / `2006-01-02T15:04:05`
(with `sep` the separator), fractional-second tolerance included. -/
def matchTimestampSep (sep : Char) (cs : List Char) : Bool :=
  (do
    let cs ← readISODate cs
    let cs ← expectChar sep cs
    let cs ← readHMS cs
    pure (skipFraction cs)) = some []

/-- One of the layouts `2006-01-02 15:04:05.000` /
`2006-01-02T15:04:05.000`. -/
def matchTimestampSepFrac3 (sep : Char) (cs : List Char) : Bool :=
  (do
    let cs ← readISODate cs
    let cs ← expectChar sep cs
    let cs ← readHMS cs
    readFrac3 cs) = some []

/-- RFC3339 zone: `Z` or a signed `hh:mm` offset. -/
def readRFC3339Zone (cs : List Char) : Option (List Char) :=
  match cs with
  | [] => none
  | c :: rest =>
    if c = 'Z' then some rest
    else if c = '+' ∨ c = '-' then do
      let (_, cs) ← readNum2 rest
      let cs ← expectChar ':' cs
      let (_, cs) ← readNum2 cs
      pure cs
    else none

/-- The `time.RFC3339` layout: date, `T`, time, optional fraction,
zone. -/
def matchRFC3339 (cs : List Char) : Bool :=
  (do
    let cs ← readISODate cs
    let cs ← expectChar 'T' cs
    let cs ← readHMS cs
    readRFC3339Zone (skipFraction cs)) = some []

/-- `isTimestamp` of `main.go`: `time.Parse` succeeds for one of the
five listed formats. -/
def isTimestamp (value : String) : Bool :=
  matchTimestampSep ' ' value.data || matchTimestampSep 'T' value.data ||
  matchTimestampSepFrac3 ' ' value.data || matchTimestampSepFrac3 'T' value.data ||
  matchRFC3339 value.data

/-- The full-string layout `2006-01-02`. -/
def matchISODateOnly (cs : List Char) : Bool :=
  readISODate cs = some []

/-- The full-string layouts `01/02/2006` (US, `monthFirst`) and
`02/01/2006` (European). -/
def matchSlashDate (monthFirst : Bool) (cs : List Char) : Bool :=
  (do
    let (a, cs) ← readNum2 cs
    let cs ← expectChar '/' cs
    let (b, cs) ← readNum2 cs
    let cs ← expectChar '/' cs
    let (y, cs) ← readNum4 cs
    let m := if monthFirst then a else b
    let d := if monthFirst then b else a
    if 1 ≤ m ∧ m ≤ 12 ∧ 1 ≤ d ∧ d ≤ daysInMonth m y then some cs else none) = some []

/-- `isDate` of `main.go`: one of the three date formats matches (the
parsed value's precedence is irrelevant to the boolean result). -/
def isDate (value : String) : Bool :=
  matchISODateOnly value.data || matchSlashDate true value.data ||
  matchSlashDate false value.data

/-- Go `len` of a string: its UTF-8 byte length. -/
def goLen (s : String) : Nat :=
  s.data.foldl (fun n c => n + c.utf8Size) 0

/-- `isVarchar` of `main.go`: byte length at most 64000. -/
def isVarchar (value : String) : Bool :=
  decide (goLen value ≤ 64000)

/-- An entry of the type catalog (`dbtypes.DataType`). -/
structure DataType where
  name : String
  priority : Nat
deriving DecidableEq

/-- Modelled from the spec: the current
`dbtypes.PostgreSQLAnalyzer.GetTypes` is not under `src/` — `main.go`
only imports the `dbtypes` package, and the copy embedded in
`.cursor/rules/02-data-type-inference.mdc` is a stale revision without
the bounded-text entry that `main.go`'s `varchar` handling and the
current tests require.  Per spec §4.2 the ordered catalog is: boolean,
smallint, integer, bigint, numeric, timestamp, date, varchar (bounded
text), text (fallback).  The `priority` fields are sequential and
unused by the analyzer logic, which depends only on the order and the
names. -/
def postgresTypes : List DataType :=
  [⟨"boolean", 1⟩, ⟨"smallint", 2⟩, ⟨"integer", 3⟩, ⟨"bigint", 4⟩,
   ⟨"numeric", 5⟩, ⟨"timestamp", 6⟩, ⟨"date", 7⟩, ⟨"varchar", 8⟩, ⟨"text", 9⟩]

/-- The loop body of `inferType` (`main.go`): walk the catalog in order,
dispatching on each entry's name exactly as the Go `switch` does, and
return the index of the first satisfied candidate. -/
def inferTypeAux (value : String) : List DataType → Nat → Option Nat
  | [], _ => none
  | t :: rest, i =>
    match t.name with
    | "boolean" => if isBoolean value then some i else inferTypeAux value rest (i + 1)
    | "smallint" => if isSmallInt value then some i else inferTypeAux value rest (i + 1)
    | "integer" =>
      if isInteger value && !isSmallInt value then some i else inferTypeAux value rest (i + 1)
    | "bigint" =>
      if isBigInt value && !isInteger value then some i else inferTypeAux value rest (i + 1)
    | "numeric" =>
      if isNumeric value && !isBigInt value then some i else inferTypeAux value rest (i + 1)
    | "timestamp" => if isTimestamp value then some i else inferTypeAux value rest (i + 1)
    | "date" => if isDate value then some i else inferTypeAux value rest (i + 1)
    | "varchar" => if isVarchar value then some i else inferTypeAux value rest (i + 1)
    | "text" => some i
    | _ => inferTypeAux value rest (i + 1)

/-- `inferType` of `main.go`: rank of the first satisfied candidate,
defaulting to the last rank. -/
def inferType (value : String) : Nat :=
  match inferTypeAux value postgresTypes 0 with
  | some i => i
  | none => postgresTypes.length - 1

/-- The two fatal error kinds of `analyzeFileTypes` (`fmt.Errorf`
messages `"header line has %d fields, expected %d"` and
`"line %d has %d fields, expected %d"`). -/
inductive AnalyzeError
  | configError (headerFields expected : Nat)
  | structuralError (lineNum got expected : Nat)
deriving DecidableEq

/-- The successful output of `analyzeFileTypes`: headers, per-column
final ranks, per-column max varchar lengths. -/
structure AnalyzeResult where
  headers : List String
  columnTypes : List Nat
  maxLengths : List Nat
deriving DecidableEq

/-- Name of the catalog entry at rank `i`
(`analyzer.GetTypes()[i].Name`). -/
def typeNameAt (i : Nat) : String :=
  (postgresTypes.getD i ⟨"", 0⟩).name

/-- Per-field update of one column's state (the body of the
`for i, field := range fields` loop in `analyzeFileTypes`): promote the
rank if the field's rank is strictly larger, and track the max length
when the field's own rank is the varchar rank. -/
def updateColumn (field : String) (ct ml : Nat) : Nat × Nat :=
  let fieldType := inferType field
  let ct2 := if fieldType > ct then fieldType else ct
  let ml2 :=
    if typeNameAt fieldType == "varchar" then
      (if goLen field > ml then goLen field else ml)
    else ml
  (ct2, ml2)

/-- Apply `updateColumn` across one row's fields and the column
states. -/
def processRow : List String → List Nat → List Nat → List Nat × List Nat
  | field :: fs, ct :: cts, ml :: mls =>
    let u := updateColumn field ct ml
    let r := processRow fs cts mls
    (u.1 :: r.1, u.2 :: r.2)
  | _, _, _ => ([], [])

/-- The data-row loop of `analyzeFileTypes`: `lineNum` counts the lines
already consumed (1 after the header); each row must tokenize to
`numCols` fields or the scan aborts with the structural error. -/
def scanRows (delim : Char) (quotes : QuoteMode) (numCols : Nat) :
    List String → Nat → List Nat → List Nat → Except AnalyzeError (List Nat × List Nat)
  | [], _, cts, mls => Except.ok (cts, mls)
  | line :: rest, lineNum, cts, mls =>
    let fields := splitFields line delim quotes
    if fields.length ≠ numCols then
      Except.error (AnalyzeError.structuralError (lineNum + 1) fields.length numCols)
    else
      let p := processRow fields cts mls
      scanRows delim quotes numCols rest (lineNum + 1) p.1 p.2

/-- `analyzeFileTypes` of `main.go` on a sequence of text lines: empty
input yields empty output; otherwise the first line is the header, the
optional positive `expectedCols` is cross-checked against the header's
field count, every column starts at rank 0 with length 0, and the data
rows are scanned. -/
def analyzeFileTypes (lines : List String) (delim : Char) (quotes : QuoteMode)
    (expectedCols : Nat) : Except AnalyzeError AnalyzeResult :=
  match lines with
  | [] => Except.ok ⟨[], [], []⟩
  | headerLine :: rest =>
    let headers := splitFields headerLine delim quotes
    if expectedCols > 0 ∧ headers.length ≠ expectedCols then
      Except.error (AnalyzeError.configError headers.length expectedCols)
    else
      match scanRows delim quotes headers.length rest 1
          (List.replicate headers.length 0) (List.replicate headers.length 0) with
      | Except.error e => Except.error e
      | Except.ok p => Except.ok ⟨headers, p.1, p.2⟩

/-- The per-column sequence of individually inferred field ranks: for
column `i`, the rank `inferType` assigns to row `r`'s `i`-th tokenized
field. -/
def columnRanks (delim : Char) (quotes : QuoteMode) (i : Nat) (rows : List String) : List Nat :=
  rows.map (fun r => inferType ((splitFields r delim quotes).getD i ""))

/-- The recognizer predicate attached to a catalog entry name — the
conditions of the Go `switch` arms in `inferType`, case by case. -/
def accepts (name value : String) : Bool :=
  match name with
  | "boolean" => isBoolean value
  | "smallint" => isSmallInt value
  | "integer" => isInteger value && !isSmallInt value
  | "bigint" => isBigInt value && !isInteger value
  | "numeric" => isNumeric value && !isBigInt value
  | "timestamp" => isTimestamp value
  | "date" => isDate value
  | "varchar" => isVarchar value
  | "text" => true
  | _ => false

/-! ## Helper lemmas -/

/-- Fields produced inside quotes never contain the quote character:
the quote branch of the scanner is taken before any other and drops the
character. -/
lemma splitQuotedAux_no_quote (delim qc : Char) :
    ∀ (cs : List Char) (b : Bool) (cur : List Char), ¬ qc ∈ cur →
      ∀ f ∈ splitQuotedAux delim qc cs b cur, ¬ qc ∈ f.data := by
  intro cs
  induction cs with
  | nil =>
    intro b cur hcur f hf
    simp only [splitQuotedAux, List.mem_singleton] at hf
    subst hf
    simpa using hcur
  | cons c rest ih =>
    intro b cur hcur f hf
    simp only [splitQuotedAux] at hf
    split_ifs at hf with h1 h2
    · exact ih (!b) cur hcur f hf
    · rcases List.mem_cons.mp hf with hf | hf
      · subst hf; simpa using hcur
      · exact ih b [] (by simp) f hf
    · refine ih b (cur ++ [c]) ?_ f hf
      intro hmem
      rcases List.mem_append.mp hmem with hm | hm
      · exact hcur hm
      · exact h1 (List.mem_singleton.mp hm).symm

/-- Unrolling `inferTypeAux` over the concrete catalog. -/
lemma inferTypeAux_postgres (v : String) :
    inferTypeAux v postgresTypes 0 =
      (if isBoolean v then some 0
       else if isSmallInt v then some 1
       else if isInteger v && !isSmallInt v then some 2
       else if isBigInt v && !isInteger v then some 3
       else if isNumeric v && !isBigInt v then some 4
       else if isTimestamp v then some 5
       else if isDate v then some 6
       else if isVarchar v then some 7
       else some 8) := rfl

/-- `inferType` as the decision ladder of the Go `switch`. -/
lemma inferType_eq (v : String) :
    inferType v =
      (if isBoolean v then 0
       else if isSmallInt v then 1
       else if isInteger v && !isSmallInt v then 2
       else if isBigInt v && !isInteger v then 3
       else if isNumeric v && !isBigInt v then 4
       else if isTimestamp v then 5
       else if isDate v then 6
       else if isVarchar v then 7
       else 8) := by
  unfold inferType
  rw [inferTypeAux_postgres]
  split_ifs <;> rfl

/-- The promoted rank is the maximum of the old rank and the field's
rank. -/
lemma updateColumn_fst (f : String) (ct ml : Nat) :
    (updateColumn f ct ml).1 = max ct (inferType f) := by
  unfold updateColumn
  dsimp only
  split_ifs with hgt
  · exact (Nat.max_eq_right (Nat.le_of_lt hgt)).symm
  · exact (Nat.max_eq_left (Nat.le_of_not_lt hgt)).symm

/-- `processRow` preserves the column counts. -/
lemma processRow_length : ∀ (fs : List String) (cts mls : List Nat),
    fs.length = cts.length → cts.length = mls.length →
    (processRow fs cts mls).1.length = fs.length ∧
    (processRow fs cts mls).2.length = fs.length := by
  intro fs
  induction fs with
  | nil => intro cts mls _ _; exact ⟨rfl, rfl⟩
  | cons f fs ih =>
    intro cts mls h1 h2
    cases cts with
    | nil => simp at h1
    | cons ct cts =>
      cases mls with
      | nil => simp at h2
      | cons ml mls =>
        have := ih cts mls (by simpa using h1) (by simpa using h2)
        simp [processRow, this.1, this.2]

/-- Pointwise effect of `processRow` on the rank column. -/
lemma processRow_fst_getD : ∀ (fs : List String) (cts mls : List Nat) (i : Nat),
    fs.length = cts.length → cts.length = mls.length → i < fs.length →
    (processRow fs cts mls).1.getD i 0 =
      max (cts.getD i 0) (inferType (fs.getD i "")) := by
  intro fs
  induction fs with
  | nil => intro cts mls i _ _ hi; simp at hi
  | cons f fs ih =>
    intro cts mls i h1 h2 hi
    cases cts with
    | nil => simp at h1
    | cons ct cts =>
      cases mls with
      | nil => simp at h2
      | cons ml mls =>
        cases i with
        | zero => simp [processRow, updateColumn_fst]
        | succ i =>
          have := ih cts mls i (by simpa using h1) (by simpa using h2) (by simpa using hi)
          simpa [processRow] using this

/-- A successful scan computes, for every column, the running maximum
of the per-field ranks folded over the rows, starting from the initial
rank. -/
lemma scanRows_ok_spec (delim : Char) (quotes : QuoteMode) (n : Nat) :
    ∀ (rows : List String) (lineNum : Nat) (cts mls : List Nat)
      (out : List Nat × List Nat),
    cts.length = n → mls.length = n →
    scanRows delim quotes n rows lineNum cts mls = Except.ok out →
    out.1.length = n ∧
    ∀ i, i < n → out.1.getD i 0 =
      (columnRanks delim quotes i rows).foldl max (cts.getD i 0) := by
  intro rows
  induction rows with
  | nil =>
    intro lineNum cts mls out h1 h2 hok
    simp only [scanRows] at hok
    cases hok
    exact ⟨h1, fun i _ => by simp [columnRanks]⟩
  | cons row rows ih =>
    intro lineNum cts mls out h1 h2 hok
    simp only [scanRows] at hok
    split_ifs at hok with hlen
    have hflen : (splitFields row delim quotes).length = n := by
      push_neg at hlen; exact hlen
    have hpl := processRow_length (splitFields row delim quotes) cts mls
      (by rw [hflen, h1]) (by rw [h1, h2])
    have hrec := ih (lineNum + 1) _ _ out
      (by rw [hpl.1, hflen]) (by rw [hpl.2, hflen]) hok
    refine ⟨hrec.1, fun i hi => ?_⟩
    rw [hrec.2 i hi]
    rw [processRow_fst_getD (splitFields row delim quotes) cts mls i
      (by rw [hflen, h1]) (by rw [h1, h2]) (by rw [hflen]; exact hi)]
    simp [columnRanks]

/-- If a scan succeeds, so does the scan of every prefix of its rows. -/
lemma scanRows_take_ok (delim : Char) (quotes : QuoteMode) (n : Nat) :
    ∀ (rows : List String) (lineNum : Nat) (cts mls : List Nat)
      (out : List Nat × List Nat),
    scanRows delim quotes n rows lineNum cts mls = Except.ok out →
    ∀ k, ∃ out2, scanRows delim quotes n (rows.take k) lineNum cts mls = Except.ok out2 := by
  intro rows
  induction rows with
  | nil => intro lineNum cts mls out _ k; exact ⟨(cts, mls), by simp [scanRows]⟩
  | cons row rows ih =>
    intro lineNum cts mls out hok k
    cases k with
    | zero => exact ⟨(cts, mls), by simp [scanRows]⟩
    | succ k =>
      simp only [scanRows] at hok
      split_ifs at hok with hlen
      obtain ⟨out2, hout2⟩ := ih (lineNum + 1) _ _ out hok k
      refine ⟨out2, ?_⟩
      simp only [List.take_succ_cons, scanRows]
      rw [if_neg hlen]
      exact hout2

/-- The seed is dominated by a `max`-fold. -/
lemma le_foldl_max : ∀ (l : List Nat) (a : Nat), a ≤ l.foldl max a := by
  intro l
  induction l with
  | nil => intro a; exact Nat.le_refl a
  | cons x l ih => intro a; exact Nat.le_trans (Nat.le_max_left a x) (ih (max a x))

/-- A `max`-fold can only grow when more elements are appended. -/
lemma foldl_max_le_append (l t : List Nat) (a : Nat) :
    l.foldl max a ≤ (l ++ t).foldl max a := by
  rw [List.foldl_append]
  exact le_foldl_max t _

/-- `columnRanks` commutes with `take`. -/
lemma columnRanks_take (delim : Char) (quotes : QuoteMode) (i : Nat)
    (rows : List String) (k : Nat) :
    columnRanks delim quotes i (rows.take k) = (columnRanks delim quotes i rows).take k := by
  simp [columnRanks, List.map_take]

/-- Reading anywhere in an all-zero state gives zero. -/
lemma getD_replicate_zero : ∀ (n i : Nat), (List.replicate n (0 : Nat)).getD i 0 = 0 := by
  intro n
  induction n with
  | zero => intro i; simp
  | succ n ih =>
    intro i
    cases i with
    | zero => simp [List.replicate]
    | succ i => simp [List.replicate]

/-- One unfolding of `analyzeFileTypes` on a non-empty input. -/
lemma analyzeFileTypes_cons (delim : Char) (quotes : QuoteMode) (expectedCols : Nat)
    (header : String) (rows : List String) :
    analyzeFileTypes (header :: rows) delim quotes expectedCols =
      (if expectedCols > 0 ∧ (splitFields header delim quotes).length ≠ expectedCols then
        Except.error (AnalyzeError.configError (splitFields header delim quotes).length expectedCols)
      else
        match scanRows delim quotes (splitFields header delim quotes).length rows 1
            (List.replicate (splitFields header delim quotes).length 0)
            (List.replicate (splitFields header delim quotes).length 0) with
        | Except.error e => Except.error e
        | Except.ok p => Except.ok ⟨splitFields header delim quotes, p.1, p.2⟩) := rfl

/-- A scan aborts at the first row whose field count disagrees with the
header's, reporting the line number of that row (`lineNum` lines were
already consumed) and both counts. -/
lemma scanRows_first_bad (delim : Char) (quotes : QuoteMode) (n : Nat) :
    ∀ (rows : List String) (k lineNum : Nat) (cts mls : List Nat),
    cts.length = n → mls.length = n → k < rows.length →
    (∀ j, j < k → (splitFields (rows.getD j "") delim quotes).length = n) →
    (splitFields (rows.getD k "") delim quotes).length ≠ n →
    scanRows delim quotes n rows lineNum cts mls =
      Except.error (AnalyzeError.structuralError (lineNum + k + 1)
        (splitFields (rows.getD k "") delim quotes).length n) := by
  intro rows
  induction rows with
  | nil => intro k lineNum cts mls _ _ hk _ _; simp at hk
  | cons row rows ih =>
    intro k lineNum cts mls h1 h2 hk hgood hbad
    cases k with
    | zero =>
      simp only [List.getD_cons_zero] at hbad ⊢
      simp only [scanRows]
      rw [if_pos hbad]
    | succ k =>
      have hrow : (splitFields row delim quotes).length = n := by
        have := hgood 0 (Nat.succ_pos k)
        simpa using this
      simp only [List.getD_cons_succ] at hbad ⊢
      have hpl := processRow_length (splitFields row delim quotes) cts mls
        (by rw [hrow, h1]) (by rw [h1, h2])
      have hrec := ih k (lineNum + 1) _ _
        (by rw [hpl.1, hrow]) (by rw [hpl.2, hrow])
        (by simpa using hk)
        (fun j hj => by simpa using hgood (j + 1) (Nat.succ_lt_succ hj))
        hbad
      simp only [scanRows]
      rw [if_neg (by rw [hrow]; exact fun h => h rfl)]
      rw [hrec, (by omega : lineNum + 1 + k + 1 = lineNum + (k + 1) + 1)]

/-! ## Claim theorems -/

/-- C1.  For every input file and every column, the recorded rank never
decreases while the data rows are scanned, and when the scan completes
without error the final rank equals the maximum, over all data-row
fields of that column, of the rank `inferType` assigns to each field:
the final rank is the `max`-fold (from the initial rank 0) of
`columnRanks`, and the scan state after every `k`-row prefix exists,
equals the `max`-fold of the first `k` field ranks — hence is monotone
in `k` — and is bounded by the final rank. -/
theorem c1_rank_promotion_monotone_max (delim : Char) (quotes : QuoteMode)
    (expectedCols : Nat) (header : String) (rows : List String) (res : AnalyzeResult)
    (hok : analyzeFileTypes (header :: rows) delim quotes expectedCols = Except.ok res) :
    ∀ i, i < res.columnTypes.length →
      res.columnTypes.getD i 0 = (columnRanks delim quotes i rows).foldl max 0 ∧
      ∀ k, ∃ cm, scanRows delim quotes (splitFields header delim quotes).length
          (rows.take k) 1
          (List.replicate (splitFields header delim quotes).length 0)
          (List.replicate (splitFields header delim quotes).length 0) = Except.ok cm ∧
        cm.1.getD i 0 = (columnRanks delim quotes i (rows.take k)).foldl max 0 ∧
        cm.1.getD i 0 ≤ res.columnTypes.getD i 0 := by
  rw [analyzeFileTypes_cons] at hok
  split_ifs at hok with hcfg
  set n := (splitFields header delim quotes).length with hn
  cases hscan : scanRows delim quotes n rows 1 (List.replicate n 0) (List.replicate n 0) with
  | error e => rw [hscan] at hok; simp at hok
  | ok p =>
    rw [hscan] at hok
    simp only [Except.ok.injEq] at hok
    subst hok
    have hspec := scanRows_ok_spec delim quotes n rows 1 _ _ p
      (by simp) (by simp) hscan
    intro i hi
    have hin : i < n := by
      have := hspec.1
      simpa [this] using hi
    have hfinal : p.1.getD i 0 = (columnRanks delim quotes i rows).foldl max 0 := by
      rw [hspec.2 i hin, getD_replicate_zero]
    refine ⟨hfinal, fun k => ?_⟩
    obtain ⟨cm, hcm⟩ := scanRows_take_ok delim quotes n rows 1 _ _ p hscan k
    have hcmspec := scanRows_ok_spec delim quotes n (rows.take k) 1 _ _ cm
      (by simp) (by simp) hcm
    have hcmval : cm.1.getD i 0 = (columnRanks delim quotes i (rows.take k)).foldl max 0 := by
      rw [hcmspec.2 i hin, getD_replicate_zero]
    refine ⟨cm, hcm, hcmval, ?_⟩
    rw [hcmval, hfinal]
    calc (columnRanks delim quotes i (rows.take k)).foldl max 0
        = ((columnRanks delim quotes i rows).take k).foldl max 0 := by
          rw [columnRanks_take]
      _ ≤ (((columnRanks delim quotes i rows).take k) ++
            ((columnRanks delim quotes i rows).drop k)).foldl max 0 :=
          foldl_max_le_append _ _ 0
      _ = (columnRanks delim quotes i rows).foldl max 0 := by
          rw [List.take_append_drop]

/-- Witness for C1: a one-column file whose fields rank 1 (`"5"`) and
7 (`"abc"`); the final rank 7 is the maximum of the observed field
ranks. -/
theorem c1_witness :
    (AnalyzeResult.mk ["h"] [7] [3]).columnTypes.getD 0 0 =
      (columnRanks ',' QuoteMode.none 0 ["5", "abc"]).foldl max 0 :=
  (c1_rank_promotion_monotone_max ',' QuoteMode.none 0 "h" ["5", "abc"]
    ⟨["h"], [7], [3]⟩ rfl 0 (by decide)).1

/-- C2.  The quote-aware tokenizer: the concrete round-trip
`tokenize("a,b","c,d") = ["a,b", "c,d"]`; the active quote character is
never emitted into any field (double and single modes); the quote
character toggles the inside-quote flag; a delimiter ends the field only
when the flag is unset and is kept as content otherwise; the last field
is emitted even when the flag is still set at end of line. -/
theorem c2_tokenizer_state_machine :
    splitFields "\"a,b\",\"c,d\"" ',' QuoteMode.double = ["a,b", "c,d"] ∧
    (∀ (line : String) (delim : Char),
      ∀ f ∈ splitFields line delim QuoteMode.double, ¬ '"' ∈ f.data) ∧
    (∀ (line : String) (delim : Char),
      ∀ f ∈ splitFields line delim QuoteMode.single, ¬ '\'' ∈ f.data) ∧
    (∀ (delim qc : Char) (rest : List Char) (b : Bool) (cur : List Char),
      splitQuotedAux delim qc (qc :: rest) b cur = splitQuotedAux delim qc rest (!b) cur) ∧
    (∀ (delim qc : Char) (rest : List Char) (cur : List Char), delim ≠ qc →
      splitQuotedAux delim qc (delim :: rest) false cur =
        String.mk cur :: splitQuotedAux delim qc rest false []) ∧
    (∀ (delim qc : Char) (rest : List Char) (cur : List Char), delim ≠ qc →
      splitQuotedAux delim qc (delim :: rest) true cur =
        splitQuotedAux delim qc rest true (cur ++ [delim])) ∧
    (∀ (delim qc : Char) (b : Bool) (cur : List Char),
      splitQuotedAux delim qc [] b cur = [String.mk cur]) := by
  refine ⟨by decide, ?_, ?_, ?_, ?_, ?_, ?_⟩
  · intro line delim f hf
    exact splitQuotedAux_no_quote delim '"' line.data false [] (by simp) f hf
  · intro line delim f hf
    exact splitQuotedAux_no_quote delim '\'' line.data false [] (by simp) f hf
  · intro delim qc rest b cur
    simp [splitQuotedAux]
  · intro delim qc rest cur hne
    simp [splitQuotedAux, hne]
  · intro delim qc rest cur hne
    simp [splitQuotedAux, hne]
  · intro delim qc b cur
    simp [splitQuotedAux]

/-- Witness for C2: instantiations of the hypothesis-bearing parts at
concrete inputs. -/
theorem c2_witness :
    (¬ '"' ∈ (String.mk ['a']).data) ∧
    (splitQuotedAux ',' '"' [','] false [] = String.mk [] :: splitQuotedAux ',' '"' [] false []) ∧
    (splitQuotedAux ',' '"' [','] true [] = splitQuotedAux ',' '"' [] true ([] ++ [','])) :=
  ⟨c2_tokenizer_state_machine.2.1 "\"a\"" ',' (String.mk ['a']) (by decide),
   c2_tokenizer_state_machine.2.2.2.2.1 ',' '"' [] [] (by decide),
   c2_tokenizer_state_machine.2.2.2.2.2.1 ',' '"' [] [] (by decide)⟩

/-- C3.  The asymmetric integer range ladder: `"32767"` ranks smallint,
`"32768"` ranks integer, `"9223372036854775807"` ranks bigint, and
`"9223372036854775808"` ranks numeric. -/
theorem c3_integer_boundary_ladder :
    inferType "32767" = 1 ∧ typeNameAt 1 = "smallint" ∧
    inferType "32768" = 2 ∧ typeNameAt 2 = "integer" ∧
    inferType "9223372036854775807" = 3 ∧ typeNameAt 3 = "bigint" ∧
    inferType "9223372036854775808" = 4 ∧ typeNameAt 4 = "numeric" := by
  decide

/-- C4.  When some data row tokenizes to a field count different from
the header's, `analyzeFileTypes` returns the structural error at the
first such row, carrying the 1-based line number (header = line 1), the
actual and the expected counts, and no per-column results; the cited
3-column/2-field instance is the witness. -/
theorem c4_structural_error_first_row (delim : Char) (quotes : QuoteMode)
    (expectedCols : Nat) (header : String) (rows : List String) (k : Nat)
    (hconfig : ¬(expectedCols > 0 ∧ (splitFields header delim quotes).length ≠ expectedCols))
    (hk : k < rows.length)
    (hgood : ∀ j, j < k →
      (splitFields (rows.getD j "") delim quotes).length =
        (splitFields header delim quotes).length)
    (hbad : (splitFields (rows.getD k "") delim quotes).length ≠
      (splitFields header delim quotes).length) :
    analyzeFileTypes (header :: rows) delim quotes expectedCols =
      Except.error (AnalyzeError.structuralError (k + 2)
        (splitFields (rows.getD k "") delim quotes).length
        (splitFields header delim quotes).length) := by
  rw [analyzeFileTypes_cons, if_neg hconfig]
  rw [scanRows_first_bad delim quotes (splitFields header delim quotes).length rows k 1
    _ _ (by simp) (by simp) hk hgood hbad]
  rw [(by omega : 1 + k + 1 = k + 2)]

/-- Witness for C4: header `a,b,c` (3 columns) followed by the data row
`1,2` (2 fields) yields the structural error at line 2 reporting got 2,
expected 3. -/
theorem c4_witness :
    analyzeFileTypes ["a,b,c", "1,2"] ',' QuoteMode.none 0 =
      Except.error (AnalyzeError.structuralError 2 2 3) :=
  c4_structural_error_first_row ',' QuoteMode.none 0 "a,b,c" ["1,2"] 0
    (by simp) (by decide) (fun j hj => absurd hj (Nat.not_lt_zero j)) (by decide)

/-- C5.  A column observing `"ab"` and `"abcde"` (matching no rank more
specific than bounded text) is finally reported at the varchar rank with
recorded maximum observed length 5; and the varchar predicate accepts
exactly the strings of length at most 64000. -/
theorem c5_varchar_length_tracking :
    analyzeFileTypes ["h", "ab", "abcde"] ',' QuoteMode.none 0 =
      Except.ok ⟨["h"], [7], [5]⟩ ∧
    typeNameAt 7 = "varchar" ∧
    (∀ s : String, isVarchar s = decide (goLen s ≤ 64000)) :=
  ⟨rfl, rfl, fun _ => rfl⟩

/-- C6.  `isBoolean` holds exactly when the trimmed, lowercased value is
one of `true`, `false`, `t`, `f`: so `"TRUE"`, `"t"`, `"F"` are boolean
while `"1"`, `"0"`, `"yes"` are not and fall through to less specific
ranks (rank 1 smallint for the digits, rank 7 varchar for `"yes"`). -/
theorem c6_boolean_exactness :
    (∀ value : String, isBoolean value =
      (String.mk ((trimSpace value).data.map asciiLower) == "true" ||
       String.mk ((trimSpace value).data.map asciiLower) == "false" ||
       String.mk ((trimSpace value).data.map asciiLower) == "t" ||
       String.mk ((trimSpace value).data.map asciiLower) == "f")) ∧
    isBoolean "TRUE" = true ∧ isBoolean "t" = true ∧ isBoolean "F" = true ∧
    isBoolean "1" = false ∧ isBoolean "0" = false ∧ isBoolean "yes" = false ∧
    inferType "1" = 1 ∧ typeNameAt 1 = "smallint" ∧
    inferType "0" = 1 ∧
    inferType "yes" = 7 ∧ typeNameAt 7 = "varchar" :=
  ⟨fun _ => rfl, by decide, by decide, by decide, by decide, by decide, by decide,
   by decide, rfl, by decide, by decide, rfl⟩

/-- C7.  A supplied positive expected column count that differs from the
header's tokenized field count yields the configuration error carrying
both counts, for every tail of data rows (so no data-row field can
influence the result, and no column output is produced). -/
theorem c7_configuration_error (delim : Char) (quotes : QuoteMode) (expectedCols : Nat)
    (header : String) (rest : List String)
    (hpos : 0 < expectedCols)
    (hne : (splitFields header delim quotes).length ≠ expectedCols) :
    analyzeFileTypes (header :: rest) delim quotes expectedCols =
      Except.error (AnalyzeError.configError (splitFields header delim quotes).length expectedCols) := by
  rw [analyzeFileTypes_cons, if_pos ⟨hpos, hne⟩]

/-- Witness for C7: a 3-column header against expected count 2, over a
data row that would itself be structurally valid. -/
theorem c7_witness :
    analyzeFileTypes ["a,b,c", "t,1,2"] ',' QuoteMode.none 2 =
      Except.error (AnalyzeError.configError 3 2) :=
  c7_configuration_error ',' QuoteMode.none 2 "a,b,c" ["t,1,2"] (by decide) (by decide)

/-- C8.  `inferType` is total and never errors: its result is always a
valid rank, it is the first rank of the catalog whose recognizer
(`accepts`, the Go `switch` arm conditions) is satisfied, and a value
failing every specific recognizer receives the terminal fallback text
rank. -/
theorem c8_infer_first_match_total (v : String) :
    inferType v < postgresTypes.length ∧
    accepts (typeNameAt (inferType v)) v = true ∧
    (∀ j, j < inferType v → accepts (typeNameAt j) v = false) ∧
    ((∀ j, j < postgresTypes.length - 1 → accepts (typeNameAt j) v = false) →
      inferType v = postgresTypes.length - 1) := by
  have h := inferType_eq v
  have key : inferType v < postgresTypes.length ∧
      accepts (typeNameAt (inferType v)) v = true ∧
      (∀ j, j < inferType v → accepts (typeNameAt j) v = false) := by
    split_ifs at h with h1 h2 h3 h4 h5 h6 h7 h8 <;> rw [h] <;>
      refine ⟨by decide, by simp_all [typeNameAt, postgresTypes, accepts], ?_⟩ <;>
      (intro j hj; interval_cases j <;> simp_all [typeNameAt, postgresTypes, accepts])
  refine ⟨key.1, key.2.1, key.2.2, ?_⟩
  intro hall
  by_contra hne
  have hlen : postgresTypes.length = 9 := rfl
  have hlt : inferType v < 8 := by
    have h1 := key.1
    rw [hlen] at h1
    rw [hlen] at hne
    omega
  have := hall (inferType v) (by rw [hlen]; omega)
  rw [key.2.1] at this
  simp at this

/-- Witness for C8: `"yes"` fails the boolean recognizer (rank 0) and
receives a positive rank. -/
theorem c8_witness :
    0 < inferType "yes" ∧ accepts (typeNameAt 0) "yes" = false :=
  ⟨by decide, (c8_infer_first_match_total "yes").2.2.1 0 (by decide)⟩

/-- C9.  A one-line input (header only) succeeds — under any expected
count that passes the header cross-check — and reports every column at
the initial rank 0, whose catalog name is `boolean`, with max observed
length 0. -/
theorem c9_header_only (delim : Char) (quotes : QuoteMode) (expectedCols : Nat)
    (header : String)
    (hconfig : ¬(0 < expectedCols ∧ (splitFields header delim quotes).length ≠ expectedCols)) :
    analyzeFileTypes [header] delim quotes expectedCols =
      Except.ok ⟨splitFields header delim quotes,
        List.replicate (splitFields header delim quotes).length 0,
        List.replicate (splitFields header delim quotes).length 0⟩ ∧
    typeNameAt 0 = "boolean" := by
  refine ⟨?_, rfl⟩
  rw [analyzeFileTypes_cons, if_neg hconfig]
  rfl

/-- Witness for C9: a two-column header with no data rows. -/
theorem c9_witness :
    analyzeFileTypes ["a,b"] ',' QuoteMode.none 0 =
      Except.ok ⟨["a", "b"], [0, 0], [0, 0]⟩ ∧
    typeNameAt 0 = "boolean" :=
  c9_header_only ',' QuoteMode.none 0 "a,b" (by decide)

/-- C10.  The empty input yields success with empty headers, empty
column types and empty lengths, for every expected column count
(positive ones included): the expected-count cross-check only runs when
a header line exists. -/
theorem c10_empty_input (delim : Char) (quotes : QuoteMode) (expectedCols : Nat) :
    analyzeFileTypes [] delim quotes expectedCols = Except.ok ⟨[], [], []⟩ :=
  rfl

end File2ddl
